import Mathlib

/-!
# Verification of the customer-churn preprocessing transform

Shallow embedding of the preprocessing script `preprocess.py` defined in
`Notebooks/SageMaker_Customer_Churn_XGB_end2end.ipynb` (cell 11).  The script is
a linear, single-pass tabular transform:

  1. `pd.read_csv` — parse the delimited input into a dataframe;
  2. `df.drop(["Phone"], axis=1)` — drop the "Phone" column;
  3. `df["Area Code"] = df["Area Code"].astype(object)` — re-cast to categorical;
  4. `df.drop(["Day Charge", "Eve Charge", "Night Charge", "Intl Charge"], axis=1)`;
  5. `pd.get_dummies(df)` — one-hot expand every object-typed column;
  6. `pd.concat([model_data["Churn?_True."], model_data.drop(["Churn?_False.",
     "Churn?_True."], axis=1)], axis=1)` — binary label moved to position 0;
  7. `np.split(model_data.sample(frac=1, random_state=1729),
     [int(0.7*len(model_data)), int(0.9*len(model_data))])` — seeded shuffle,
     then contiguous slicing;
  8. three `to_csv(..., header=False, index=False)` writes.

A dataframe is a list of typed column headers plus row-major cell data; cells
are the raw text fields (the byte-stream contract of the component).  Fallible
pandas operations (KeyError on a missing column, EmptyDataError on an empty
input) are modelled with `Except` over the error taxonomy of the design spec.
-/

/-- Error taxonomy: `formatError` (unparseable input, pandas parser errors),
`schemaError` (expected column absent, pandas `KeyError`), `dataError`
(degenerate data). -/
inductive PErr where
  | formatError
  | schemaError
  | dataError
deriving DecidableEq, Repr

/-- A dataframe: column headers `(name, isObject)` — `isObject` is the pandas
dtype distinction (object/categorical vs numeric) — plus row-major cells. -/
structure Df where
  cols : List (String × Bool)
  rows : List (List String)
deriving DecidableEq, Repr

/-- Column header at index `j` (out-of-range default never used on
well-formed frames). -/
def getCol (df : Df) (j : Nat) : String × Bool :=
  df.cols.getD j ("", false)

/-- Cell of a row at column index `j`. -/
def getCell (r : List String) (j : Nat) : String :=
  r.getD j ""

/-- Column names of a dataframe, in order. -/
def colNames (df : Df) : List String :=
  df.cols.map Prod.fst

/-- Split one CSV line on commas (field-level model of the delimited format). -/
def splitCommaAux : List Char → List Char → List String
  | [], acc => [String.mk acc.reverse]
  | c :: cs, acc =>
      if c = ',' then String.mk acc.reverse :: splitCommaAux cs []
      else splitCommaAux cs (c :: acc)

/-- Split a CSV line into its comma-separated fields. -/
def splitComma (s : String) : List String :=
  splitCommaAux s.data []

/-- Fractional digits after a decimal point: nonempty, all digits. -/
def numAfterDot (cs : List Char) : Bool :=
  match cs with
  | [] => false
  | ds => ds.all Char.isDigit

/-- Body of a decimal literal; `seen` records whether a digit was read. -/
def numBody : List Char → Bool → Bool
  | [], seen => seen
  | '.' :: rest, seen => seen && numAfterDot rest
  | c :: rest, _ => c.isDigit && numBody rest true

/-- Does a field parse as a decimal number?  Models the parser's dtype
inference: a column whose fields all parse numerically is numeric, any other
column gets the object dtype. -/
def isNumStr (s : String) : Bool :=
  match s.data with
  | '-' :: rest => numBody rest false
  | l => numBody l false

/-- Column `j` gets the object dtype iff some field fails numeric parsing. -/
def colIsObject (rows : List (List String)) (j : Nat) : Bool :=
  !(rows.all fun r => isNumStr (getCell r j))

/-- `pd.read_csv`: first line is the header, remaining lines are rows; an empty
input is unparseable (pandas `EmptyDataError`), as is a ragged row (tokenizer
error).  Dtypes are inferred per column. -/
def readCsv (lines : List String) : Except PErr Df :=
  match lines with
  | [] => .error .formatError
  | header :: rest =>
      let names := splitComma header
      let rows := rest.map splitComma
      if rows.all (fun r => r.length = names.length) then
        .ok { cols := (List.range names.length).map
                (fun j => (getCell names j, colIsObject rows j)),
              rows := rows }
      else .error .formatError

/-- Keep exactly the columns at the given indices, in the given order (the
common core of `df.drop` and of the label-first `pd.concat`). -/
def selectIdx (js : List Nat) (df : Df) : Df :=
  { cols := js.map fun j => getCol df j,
    rows := df.rows.map fun r => js.map fun j => getCell r j }

/-- First position of an element in a list (length of the list when
absent). -/
def idxOf {α : Type} [DecidableEq α] (x : α) : List α → Nat
  | [] => 0
  | y :: ys => if y = x then 0 else idxOf x ys + 1

/-- `df.drop(names, axis=1)`: drop the named columns; a missing name raises
(pandas `KeyError`, the spec's `SchemaError`). -/
def dropCols (names : List String) (df : Df) : Except PErr Df :=
  if names.all (fun n => n ∈ colNames df) then
    .ok (selectIdx ((List.range df.cols.length).filter
      fun j => !(decide ((getCol df j).1 ∈ names))) df)
  else .error .schemaError

/-- `df[name] = df[name].astype(object)`: re-cast a column to the object
dtype; a missing name raises (`KeyError`). -/
def astypeObject (name : String) (df : Df) : Except PErr Df :=
  if name ∈ colNames df then
    .ok { cols := df.cols.map fun c => if c.1 = name then (c.1, true) else c,
          rows := df.rows }
  else .error .schemaError

/-- The cleaning phase of the script: drop "Phone", re-cast "Area Code",
drop the four redundant charge columns, in source order. -/
def cleanCast (df : Df) : Except PErr Df := do
  let d ← dropCols ["Phone"] df
  let d ← astypeObject "Area Code" d
  dropCols ["Day Charge", "Eve Charge", "Night Charge", "Intl Charge"] d

/-- Lexicographic comparison of character lists. -/
def charListLe : List Char → List Char → Bool
  | [], _ => true
  | _ :: _, [] => false
  | a :: as, b :: bs => if a = b then charListLe as bs else decide (a < b)

/-- Lexicographic comparison of strings. -/
def strLe (a b : String) : Bool :=
  charListLe a.data b.data

/-- Insert a string into a lexicographically sorted list. -/
def insertLe (x : String) : List String → List String
  | [] => [x]
  | y :: ys => if strLe x y then x :: y :: ys else y :: insertLe x ys

/-- Lexicographic insertion sort. -/
def sortLe : List String → List String
  | [] => []
  | x :: xs => insertLe x (sortLe xs)

/-- The distinct observed values of a list of fields, in the sorted category
order `pd.get_dummies` uses for its indicator columns. -/
def sortedDistinct (l : List String) : List String :=
  sortLe l.dedup

/-- Category values of column `j`, in indicator-column order. -/
def dummyVals (df : Df) (j : Nat) : List String :=
  sortedDistinct (df.rows.map fun r => getCell r j)

/-- Indices of the numeric (non-object) columns, in order. -/
def numIdx (df : Df) : List Nat :=
  (List.range df.cols.length).filter fun j => !(getCol df j).2

/-- Indices of the object-typed columns, in order. -/
def objIdx (df : Df) : List Nat :=
  (List.range df.cols.length).filter fun j => (getCol df j).2

/-- `pd.get_dummies(df)`: the non-object columns first in original order, then
one binary indicator column `name_value` per observed distinct value of each
object column, grouped by column in original order. -/
def getDummies (df : Df) : Df :=
  { cols := ((numIdx df).map fun j => getCol df j) ++
      (objIdx df).flatMap (fun j => (dummyVals df j).map
        fun v => ((getCol df j).1 ++ "_" ++ v, false)),
    rows := df.rows.map fun r =>
      ((numIdx df).map fun j => getCell r j) ++
      (objIdx df).flatMap (fun j => (dummyVals df j).map
        fun v => if getCell r j = v then "1" else "0") }

/-- The label rearrangement `pd.concat([md["Churn?_True."], md.drop([...])])`:
the `Churn?_True.` indicator first, then every column that is neither churn
indicator, in order; raises (`KeyError`) if either indicator is absent. -/
def encodeLabel (df : Df) : Except PErr Df :=
  if "Churn?_True." ∈ colNames df ∧ "Churn?_False." ∈ colNames df then
    .ok (selectIdx (idxOf "Churn?_True." (colNames df) ::
      (List.range df.cols.length).filter
        (fun j => !((getCol df j).1 = "Churn?_False."
          || (getCol df j).1 = "Churn?_True."))) df)
  else .error .schemaError

/-- The encode phase: one-hot expansion then label-first rearrangement. -/
def encode (df : Df) : Except PErr Df :=
  encodeLabel (getDummies df)

/-- One step of a linear congruential generator; the concrete pseudo-random
stream standing in for the library RNG behind
`sample(frac=1, random_state=seed)`. -/
def lcgNext (s : Nat) : Nat :=
  (s * 1103515245 + 12345) % 2 ^ 31

/-- Seeded draw-without-replacement shuffle: repeatedly pick the element at a
pseudo-random index and remove it; `fuel` bounds the number of draws and is
instantiated with the length of the list. -/
def shuffleGo {α : Type} [DecidableEq α] : Nat → Nat → List α → List α
  | 0, _, l => l
  | _ + 1, _, [] => []
  | fuel + 1, s, a :: as =>
      let x := (a :: as).get ⟨s % (a :: as).length, Nat.mod_lt _ (Nat.succ_pos _)⟩
      x :: shuffleGo fuel (lcgNext s) ((a :: as).erase x)

/-- `model_data.sample(frac=1, random_state=seed)`: a deterministic seeded
pseudo-random permutation of the rows. -/
def shuffle (seed : Nat) (rows : List (List String)) : List (List String) :=
  shuffleGo rows.length seed rows

/-- Fuel-driven floor of the base-2 logarithm: one halving per unit of fuel. -/
def log2Fuel : Nat → Nat → Nat
  | 0, _ => 0
  | fuel + 1, n => if 2 ≤ n then log2Fuel fuel (n / 2) + 1 else 0

/-- Floor of the base-2 logarithm (`n` units of fuel always suffice). -/
def flog2 (n : Nat) : Nat :=
  log2Fuel n n

/-- The IEEE-754 double nearest to 0.7 is `0x1.6666666666666p-1`, that is,
`sig07 / 2^53` exactly (slightly below 7/10). -/
def sig07 : Nat := 6305039478318694

/-- The IEEE-754 double nearest to 0.9 is `0x1.ccccccccccccdp-1`, that is,
`sig09 / 2^53` exactly (slightly above 9/10). -/
def sig09 : Nat := 8106479329266893

/-- Round a natural to a multiple of `2^k`, to nearest with ties to even
(rounding the quotient's last retained bit). -/
def roundAt (k p : Nat) : Nat :=
  let q := p / 2 ^ k
  let r := p % 2 ^ k
  let half := 2 ^ (k - 1)
  if half < r then (q + 1) * 2 ^ k
  else if r < half then q * 2 ^ k
  else (if q % 2 = 0 then q else q + 1) * 2 ^ k

/-- Round a natural to at most 53 significant bits, to nearest, ties to even:
the significand rounding step of IEEE-754 double arithmetic after exact
power-of-two scaling. -/
def roundSig53 (p : Nat) : Nat :=
  if p < 2 ^ 53 then p else roundAt (flog2 p - 52) p

/-- `int(c * n)` exactly as Python evaluates it for a double constant
`c = sig / 2^53` in `[1/2, 1)` and a nonnegative int `n`: `n` is converted to
the nearest double (`roundSig53 n`, exact for `n < 2^53`), the product — whose
exact value is `sig * roundSig53 n / 2^53` — is rounded to nearest-even double
(`roundSig53` of the numerator, exact scaling by `2^-53`), and `int()`
truncates toward zero. -/
def pyMulTrunc (sig n : Nat) : Nat :=
  roundSig53 (sig * roundSig53 n) / 2 ^ 53

/-- `int(0.7 * n)` in Python float arithmetic.  It is one below `⌊7n/10⌋` at
`n = 90, 170, 180, 330, ...` because the double 0.7 is below 7/10. -/
def boundary07 (n : Nat) : Nat :=
  pyMulTrunc sig07 n

/-- `int(0.9 * n)` in Python float arithmetic. -/
def boundary09 (n : Nat) : Nat :=
  pyMulTrunc sig09 n

/-- `np.split(a, [int(0.7*len(a)), int(0.9*len(a))])`: the three contiguous
blocks at the truncated 70% and 90% boundaries, the boundary positions
computed bit-exactly as the program's float arithmetic computes them. -/
def splitData (rows : List (List String)) :
    List (List String) × List (List String) × List (List String) :=
  let n := rows.length
  let k1 := boundary07 n
  let k2 := boundary09 n
  (rows.take k1, (rows.drop k1).take (k2 - k1), rows.drop k2)

/-- `to_csv(..., header=False, index=False)`: each row becomes one delimited
line, in order, with no header line. -/
def toCsvLines (rows : List (List String)) : List String :=
  rows.map fun r => String.intercalate "," r

/-- The encoded dataframe derived from the input: load, clean, encode. -/
def encodedOf (input : List String) : Except PErr Df := do
  let df ← readCsv input
  let d ← cleanCast df
  encode d

/-- The whole transform at row level: load, clean, encode, shuffle, split. -/
def preprocessRows (input : List String) (seed : Nat) :
    Except PErr (List (List String) × List (List String) × List (List String)) := do
  let enc ← encodedOf input
  return splitData (shuffle seed enc.rows)

/-- The whole transform at file level: the three header-free CSV outputs. -/
def preprocessFiles (input : List String) (seed : Nat) :
    Except PErr (List String × List String × List String) :=
  (preprocessRows input seed).map
    fun t => (toCsvLines t.1, toCsvLines t.2.1, toCsvLines t.2.2)

/-- One run of the script as shipped: the shuffle seed is hard-coded to 1729. -/
def preprocessRun (input : List String) :
    Except PErr (List String × List String × List String) :=
  preprocessFiles input 1729

/-- The file writes a run performs: none when the transform fails (every
fallible step precedes the first `to_csv`), otherwise the three split files. -/
def runWrites (input : List String) (seed : Nat) : List (String × List String) :=
  match preprocessFiles input seed with
  | .error _ => []
  | .ok (t, v, te) => [("train.csv", t), ("validation.csv", v), ("test.csv", te)]

/-- Names of the numeric (non-object) columns of a frame. -/
def numericColNames (df : Df) : List String :=
  (numIdx df).map fun j => (getCol df j).1

/-- Rectangularity: every row has exactly one cell per column. -/
def Rect (df : Df) : Prop :=
  ∀ r ∈ df.rows, r.length = df.cols.length

/-! ## Concrete frames and inputs used by witnesses and counterexamples -/

/-- Ten concrete encoded rows used to witness the `n = 10` boundary claim. -/
def rowsTen : List (List String) :=
  [["0"], ["1"], ["2"], ["3"], ["4"], ["5"], ["6"], ["7"], ["8"], ["9"]]

/-- Five concrete pairwise-distinct encoded rows for the partition witness. -/
def rowsWPart : List (List String) :=
  [["a"], ["b"], ["c"], ["d"], ["e"]]

/-- Input whose parsed dataset has duplicated rows: four identical churned
customers and one distinct retained customer. -/
def dupIn : List String :=
  ["Phone,Area Code,Day Charge,Eve Charge,Night Charge,Intl Charge,Mins,Churn?",
   "a1,408,1,1,1,1,10,True.",
   "a1,408,1,1,1,1,10,True.",
   "a1,408,1,1,1,1,10,True.",
   "a1,408,1,1,1,1,10,True.",
   "b2,415,2,2,2,2,20,False."]

/-- The encoded dataset the pipeline derives from `dupIn`. -/
def encDup : Df :=
  { cols := [("Churn?_True.", false), ("Mins", false),
             ("Area Code_408", false), ("Area Code_415", false)],
    rows := [["1", "10", "1", "0"], ["1", "10", "1", "0"], ["1", "10", "1", "0"],
             ["1", "10", "1", "0"], ["0", "20", "0", "1"]] }

/-- Concrete input used to witness determinism. -/
def wDet : List String :=
  ["Phone,Area Code,Day Charge,Eve Charge,Night Charge,Intl Charge,Mins,Churn?",
   "x9,408,3,3,3,3,12,True.",
   "y8,415,4,4,4,4,24,False."]

/-- Concrete input with no "Phone" column. -/
def wNoPhone : List String := ["A,Churn?", "1,True."]

/-- The frame `wNoPhone` parses to. -/
def dfNoPhone : Df := { cols := [("A", false), ("Churn?", true)], rows := [["1", "True."]] }

/-- Concrete two-row input: parseable, full schema, but too few rows for a
non-empty validation split. -/
def smallC8 : List String :=
  ["Phone,Area Code,Day Charge,Eve Charge,Night Charge,Intl Charge,Mins,Churn?",
   "c3,408,1,1,1,1,11,True.",
   "d4,415,2,2,2,2,22,False."]

/-- Concrete five-row input whose run has all three splits non-empty. -/
def wC9 : List String :=
  ["Phone,Area Code,Day Charge,Eve Charge,Night Charge,Intl Charge,Mins,Churn?",
   "p1,408,1,1,1,1,101,True.",
   "p2,415,2,2,2,2,102,False.",
   "p3,408,3,3,3,3,103,False.",
   "p4,510,4,4,4,4,104,True.",
   "p5,415,5,5,5,5,105,False."]

/-- The encoded frame derived from `wC9`. -/
def encC9 : Df :=
  { cols := [("Churn?_True.", false), ("Mins", false), ("Area Code_408", false),
             ("Area Code_415", false), ("Area Code_510", false)],
    rows := [["1", "101", "1", "0", "0"], ["0", "102", "0", "1", "0"],
             ["0", "103", "1", "0", "0"], ["1", "104", "0", "0", "1"],
             ["0", "105", "0", "1", "0"]] }

/-- Concrete cleaned-and-cast frame: two object columns around one numeric
column. -/
def dfC10 : Df :=
  { cols := [("Area Code", true), ("Mins", false), ("Churn?", true)],
    rows := [["408", "11", "True."], ["415", "22", "False."]] }

/-- Names of the indicator columns one-hot expansion appends, in order. -/
def dummyNames (df : Df) : List String :=
  (objIdx df).flatMap fun j => (dummyVals df j).map fun v => (getCol df j).1 ++ "_" ++ v

/-- Concrete valid input for the label-placement witness. -/
def wC4 : List String :=
  ["Phone,Area Code,Day Charge,Eve Charge,Night Charge,Intl Charge,Acct,Churn?",
   "p7,408,1,1,1,1,77,True.",
   "p8,415,2,2,2,2,88,False."]

/-- The frame `wC4` parses to. -/
def dfC4 : Df :=
  { cols := [("Phone", true), ("Area Code", false), ("Day Charge", false),
             ("Eve Charge", false), ("Night Charge", false), ("Intl Charge", false),
             ("Acct", false), ("Churn?", true)],
    rows := [["p7", "408", "1", "1", "1", "1", "77", "True."],
             ["p8", "415", "2", "2", "2", "2", "88", "False."]] }

/-- The cleaned-and-cast frame derived from `wC4`. -/
def dC4 : Df :=
  { cols := [("Area Code", true), ("Acct", false), ("Churn?", true)],
    rows := [["408", "77", "True."], ["415", "88", "False."]] }

/-- The encoded frame derived from `wC4`. -/
def encC4 : Df :=
  { cols := [("Churn?_True.", false), ("Acct", false), ("Area Code_408", false),
             ("Area Code_415", false)],
    rows := [["1", "77", "1", "0"], ["0", "88", "0", "1"]] }

/-! ## Basic lemmas about the embedded operations -/

theorem idxOf_lt_length {α : Type} [DecidableEq α] {x : α} :
    ∀ {l : List α}, x ∈ l → idxOf x l < l.length := by
  intro l hx
  induction l with
  | nil => cases hx
  | cons y ys ih =>
      by_cases hy : y = x
      · simp [idxOf, hy]
      · rcases List.mem_cons.mp hx with h | h
        · exact absurd h.symm hy
        · simpa [idxOf, hy] using ih h

theorem get_idxOf {α : Type} [DecidableEq α] {x : α} : ∀ {l : List α} (hx : x ∈ l),
    l.get ⟨idxOf x l, idxOf_lt_length hx⟩ = x := by
  intro l hx
  induction l with
  | nil => cases hx
  | cons y ys ih =>
      by_cases hy : y = x
      · simp [idxOf, hy]
      · rcases List.mem_cons.mp hx with h | h
        · exact absurd h.symm hy
        · simpa [idxOf, hy] using ih h

theorem idxOf_append_of_not_mem {α : Type} [DecidableEq α] {x : α} {l₁ l₂ : List α} (h : x ∉ l₁) :
    idxOf x (l₁ ++ l₂) = l₁.length + idxOf x l₂ := by
  induction l₁ with
  | nil => simp
  | cons y ys ih =>
      have hy : y ≠ x := fun hxy => h (by simp [hxy])
      have := ih (fun hm => h (List.mem_cons_of_mem _ hm))
      simp [idxOf, hy, this]
      omega

theorem shuffleGo_perm {α : Type} [DecidableEq α] :
    ∀ (fuel s : Nat) (l : List α), List.Perm (shuffleGo fuel s l) l := by
  intro fuel
  induction fuel with
  | zero => intro s l; simp [shuffleGo]
  | succ n ih =>
      intro s l
      match l with
      | [] => simp [shuffleGo]
      | a :: as =>
          simp only [shuffleGo]
          refine ((ih (lcgNext s) _).cons _).trans ?_
          exact (List.perm_cons_erase (List.get_mem _ _ _)).symm

/-- The seeded shuffle is a permutation of the rows. -/
theorem shuffle_perm (seed : Nat) (rows : List (List String)) :
    List.Perm (shuffle seed rows) rows :=
  shuffleGo_perm _ _ _

theorem shuffle_length (seed : Nat) (rows : List (List String)) :
    (shuffle seed rows).length = rows.length :=
  (shuffle_perm seed rows).length_eq


/-! ## The float boundary computation -/

theorem log2Fuel_spec : ∀ (fuel n : Nat), n ≤ fuel → 1 ≤ n →
    2 ^ log2Fuel fuel n ≤ n ∧ n < 2 ^ (log2Fuel fuel n + 1) := by
  intro fuel
  induction fuel with
  | zero => intro n h h1; omega
  | succ f ih =>
      intro n h h1
      by_cases h2 : 2 ≤ n
      · have hrec := ih (n / 2) (by omega) (by omega)
        simp only [log2Fuel, if_pos h2]
        have hp1 : 2 ^ (log2Fuel f (n / 2) + 1) = 2 * 2 ^ (log2Fuel f (n / 2)) := by ring
        have hp2 : 2 ^ (log2Fuel f (n / 2) + 1 + 1) = 2 * 2 ^ (log2Fuel f (n / 2) + 1) := by ring
        omega
      · have hn1 : n = 1 := by omega
        simp [log2Fuel, h2, hn1]

theorem flog2_spec {n : Nat} (h : 1 ≤ n) :
    2 ^ flog2 n ≤ n ∧ n < 2 ^ (flog2 n + 1) :=
  log2Fuel_spec n n le_rfl h

/-- Rounding to a multiple of `2^k` moves a value by at most half that step. -/
theorem roundAt_bounds (k p : Nat) (hk : 1 ≤ k) :
    roundAt k p ≤ p + 2 ^ (k - 1) ∧ p ≤ roundAt k p + 2 ^ (k - 1) := by
  unfold roundAt
  have hdm := Nat.div_add_mod p (2 ^ k)
  have hrlt : p % 2 ^ k < 2 ^ k := Nat.mod_lt _ (by positivity)
  have h2half : 2 ^ (k - 1) + 2 ^ (k - 1) = 2 ^ k := by
    have hkk : k - 1 + 1 = k := by omega
    calc 2 ^ (k - 1) + 2 ^ (k - 1) = 2 ^ (k - 1 + 1) := by ring
      _ = 2 ^ k := by rw [hkk]
  have hq1 : (p / 2 ^ k + 1) * 2 ^ k = 2 ^ k * (p / 2 ^ k) + 2 ^ k := by ring
  have hq0 : (p / 2 ^ k) * 2 ^ k = 2 ^ k * (p / 2 ^ k) := by ring
  by_cases hc1 : 2 ^ (k - 1) < p % 2 ^ k
  · rw [if_pos hc1, hq1]
    omega
  · rw [if_neg hc1]
    by_cases hc2 : p % 2 ^ k < 2 ^ (k - 1)
    · rw [if_pos hc2, hq0]
      omega
    · rw [if_neg hc2]
      by_cases hc3 : p / 2 ^ k % 2 = 0
      · rw [if_pos hc3, hq0]
        omega
      · rw [if_neg hc3, hq1]
        omega

/-- Rounding to 53 significant bits has relative error at most one part in
`2^53` (in the absolute form used below). -/
theorem roundSig53_bounds (p : Nat) :
    roundSig53 p ≤ p + p / 2 ^ 53 ∧ p ≤ roundSig53 p + p / 2 ^ 53 := by
  unfold roundSig53
  split
  · omega
  · rename_i hp
    have h53 : 2 ^ 53 ≤ p := Nat.le_of_not_lt hp
    obtain ⟨hl, hu⟩ := flog2_spec (le_trans (by norm_num) h53)
    have hb : 53 ≤ flog2 p := by
      by_contra hc
      push_neg at hc
      have hle : 2 ^ (flog2 p + 1) ≤ 2 ^ 53 := Nat.pow_le_pow_right (by norm_num) (by omega)
      omega
    have hk1 : 1 ≤ flog2 p - 52 := by omega
    have hhalf_le : 2 ^ (flog2 p - 52 - 1) ≤ p / 2 ^ 53 := by
      have h1 : (2 : Nat) ^ flog2 p / 2 ^ 53 = 2 ^ (flog2 p - 53) :=
        Nat.pow_div (by omega) (by norm_num)
      have h2 : (2 : Nat) ^ (flog2 p - 53) = 2 ^ (flog2 p - 52 - 1) := by
        congr 1
      calc 2 ^ (flog2 p - 52 - 1) = 2 ^ flog2 p / 2 ^ 53 := by rw [h1, h2]
        _ ≤ p / 2 ^ 53 := Nat.div_le_div_right hl
    have hbnd := roundAt_bounds (flog2 p - 52) p hk1
    omega

/-- The float boundaries are ordered: `int(0.7*n) ≤ int(0.9*n)` for every
row count, because the rounding errors are far smaller than the gap between
the two constants. -/
theorem boundary07_le_boundary09 (n : Nat) : boundary07 n ≤ boundary09 n := by
  unfold boundary07 boundary09 pyMulTrunc
  have h7 := roundSig53_bounds (sig07 * roundSig53 n)
  have h9 := roundSig53_bounds (sig09 * roundSig53 n)
  have hd7 : sig07 * roundSig53 n / 2 ^ 53 ≤ roundSig53 n := by
    calc sig07 * roundSig53 n / 2 ^ 53 ≤ 2 ^ 53 * roundSig53 n / 2 ^ 53 :=
      Nat.div_le_div_right (Nat.mul_le_mul_right _ (by norm_num [sig07]))
    _ = roundSig53 n := Nat.mul_div_cancel_left _ (by norm_num)
  have hd9 : sig09 * roundSig53 n / 2 ^ 53 ≤ roundSig53 n := by
    calc sig09 * roundSig53 n / 2 ^ 53 ≤ 2 ^ 53 * roundSig53 n / 2 ^ 53 :=
      Nat.div_le_div_right (Nat.mul_le_mul_right _ (by norm_num [sig09]))
    _ = roundSig53 n := Nat.mul_div_cancel_left _ (by norm_num)
  have hup : roundSig53 (sig07 * roundSig53 n) ≤ (sig07 + 1) * roundSig53 n := by
    have hr : (sig07 + 1) * roundSig53 n = sig07 * roundSig53 n + roundSig53 n := by ring
    omega
  have hlow : (sig09 - 1) * roundSig53 n ≤ roundSig53 (sig09 * roundSig53 n) := by
    have hr : (sig09 - 1) * roundSig53 n + roundSig53 n = sig09 * roundSig53 n := by
      have hs : 1 ≤ sig09 := by norm_num [sig09]
      have hss : sig09 - 1 + 1 = sig09 := by omega
      calc (sig09 - 1) * roundSig53 n + roundSig53 n
          = (sig09 - 1 + 1) * roundSig53 n := by ring
        _ = sig09 * roundSig53 n := by rw [hss]
    omega
  calc roundSig53 (sig07 * roundSig53 n) / 2 ^ 53
      ≤ (sig07 + 1) * roundSig53 n / 2 ^ 53 := Nat.div_le_div_right hup
    _ ≤ (sig09 - 1) * roundSig53 n / 2 ^ 53 :=
      Nat.div_le_div_right (Nat.mul_le_mul_right _ (by norm_num [sig07, sig09]))
    _ ≤ roundSig53 (sig09 * roundSig53 n) / 2 ^ 53 := Nat.div_le_div_right hlow

/-- At `n = 10` the float boundary agrees with exact truncation:
`int(0.7*10) = 7` (the product rounds, tie to even, to exactly 7.0). -/
theorem boundary07_ten : boundary07 10 = 7 := by decide

/-- At `n = 10`: `int(0.9*10) = 9`. -/
theorem boundary09_ten : boundary09 10 = 9 := by decide

/-- At `n = 90` the float boundary is one below exact truncation:
`int(0.7*90) = 62`, not `⌊7*90/10⌋ = 63`. -/
theorem boundary07_ninety : boundary07 90 = 62 := by decide

/-- The three slices reassemble the sliced sequence in order. -/
theorem splitData_append (rows : List (List String)) :
    (splitData rows).1 ++ (splitData rows).2.1 ++ (splitData rows).2.2 = rows := by
  have h12 : boundary07 rows.length ≤ boundary09 rows.length :=
    boundary07_le_boundary09 rows.length
  simp only [splitData, List.append_assoc]
  conv_rhs => rw [← List.take_append_drop (boundary07 rows.length) rows]
  congr 1
  conv_rhs => rw [← List.take_append_drop
    (boundary09 rows.length - boundary07 rows.length) (rows.drop (boundary07 rows.length))]
  congr 1
  rw [List.drop_drop]
  congr 1
  omega

/-- A row of any of the three slices is a row of the sliced sequence. -/
theorem mem_of_mem_splitData {r : List String} {rows : List (List String)}
    (h : r ∈ (splitData rows).1 ∨ r ∈ (splitData rows).2.1 ∨ r ∈ (splitData rows).2.2) :
    r ∈ rows := by
  have := splitData_append rows
  rw [← this]
  rcases h with h | h | h <;> simp [h]

/-- Inversion of a successful `Except` bind. -/
theorem except_bind_ok_inv {α β : Type} {e : Except PErr α} {f : α → Except PErr β}
    {b : β} (h : (e >>= f) = .ok b) : ∃ a, e = .ok a ∧ f a = .ok b := by
  cases e with
  | error err => simp [Bind.bind, Except.bind] at h
  | ok a => exact ⟨a, rfl, by simpa [Bind.bind, Except.bind] using h⟩

theorem except_bind_err {α β : Type} (e : PErr) (f : α → Except PErr β) :
    ((Except.error e : Except PErr α) >>= f) = .error e := rfl

theorem except_bind_ok {α β : Type} (a : α) (f : α → Except PErr β) :
    ((Except.ok a : Except PErr α) >>= f) = f a := rfl

/-- A selection of columns is always rectangular. -/
theorem rect_selectIdx (js : List Nat) (df : Df) : Rect (selectIdx js df) := by
  intro r hr
  simp only [selectIdx, List.mem_map] at hr
  obtain ⟨r0, _, rfl⟩ := hr
  simp [selectIdx]

/-- Two flat maps over the same index list with pointwise equal lengths have
equal total length. -/
theorem flatMap_length_congr {β γ : Type} (l : List Nat) (f : Nat → List β)
    (g : Nat → List γ) (h : ∀ j ∈ l, (f j).length = (g j).length) :
    (l.flatMap f).length = (l.flatMap g).length := by
  induction l with
  | nil => rfl
  | cons a as ih =>
      simp only [List.flatMap_cons, List.length_append]
      rw [h a (by simp), ih fun j hj => h j (by simp [hj])]

/-- One-hot expansion is always rectangular. -/
theorem rect_getDummies (df : Df) : Rect (getDummies df) := by
  intro r hr
  simp only [getDummies, List.mem_map] at hr
  obtain ⟨r0, _, rfl⟩ := hr
  simp only [getDummies, List.length_append, List.length_map]
  have := flatMap_length_congr (objIdx df)
    (fun j => (dummyVals df j).map fun v => ((getCol df j).1 ++ "_" ++ v, false))
    (fun j => (dummyVals df j).map fun v => if getCell r0 j = v then "1" else "0")
    (fun j _ => by simp)
  omega

/-- A parsed frame is rectangular. -/
theorem readCsv_rect {lines : List String} {df : Df} (h : readCsv lines = .ok df) :
    Rect df := by
  match lines with
  | [] => exact absurd h (by simp [readCsv])
  | header :: rest =>
      simp only [readCsv] at h
      split at h
      · rename_i hall
        cases h
        intro r hr
        simp only [List.all_eq_true, decide_eq_true_eq] at hall
        simpa using hall r hr
      · cases h

/-- A successful re-cast keeps the rows, the column count and the column
names. -/
theorem astypeObject_ok {name : String} {df d : Df}
    (h : astypeObject name df = .ok d) :
    d.rows = df.rows ∧ d.cols.length = df.cols.length ∧ colNames d = colNames df := by
  simp only [astypeObject] at h
  split at h
  · cases h
    refine ⟨rfl, by simp, ?_⟩
    simp only [colNames, List.map_map]
    exact List.map_congr_left fun c _ => by by_cases hc : c.1 = name <;> simp [hc]
  · cases h

/-- A successful drop keeps rectangularity and its output is a column
selection. -/
theorem dropCols_ok_inv {names : List String} {df d : Df}
    (h : dropCols names df = .ok d) :
    d = selectIdx ((List.range df.cols.length).filter
      fun j => !(decide ((getCol df j).1 ∈ names))) df ∧
    (∀ n ∈ names, n ∈ colNames df) := by
  simp only [dropCols] at h
  split at h
  · rename_i hall
    cases h
    simp only [List.all_eq_true, decide_eq_true_eq] at hall
    exact ⟨rfl, hall⟩
  · cases h

/-- A successful label rearrangement is a column selection headed by the
`Churn?_True.` column. -/
theorem encodeLabel_ok_inv {df d : Df} (h : encodeLabel df = .ok d) :
    d = selectIdx (idxOf "Churn?_True." (colNames df) ::
      (List.range df.cols.length).filter
        (fun j => !((getCol df j).1 = "Churn?_False."
          || (getCol df j).1 = "Churn?_True."))) df ∧
    "Churn?_True." ∈ colNames df ∧ "Churn?_False." ∈ colNames df := by
  simp only [encodeLabel] at h
  split at h
  · rename_i hmem
    cases h
    exact ⟨rfl, hmem.1, hmem.2⟩
  · cases h

/-- A successful encode is rectangular. -/
theorem encode_ok_rect {df enc : Df} (h : encode df = .ok enc) : Rect enc := by
  obtain ⟨heq, -, -⟩ := encodeLabel_ok_inv h
  rw [heq]
  exact rect_selectIdx _ _

/-! ## Claim theorems -/

/-- Claim C1: for every encoded dataset of `n` rows and every seed, the split
operation first shuffles all rows by a deterministic seeded pseudo-random
permutation, then slices the shuffled sequence at positions `int(0.7*n)` and
`int(0.9*n)` (integer truncation of the float products, modelled bit-exactly
by `boundary07`/`boundary09`); train, validation and test are exactly the
three contiguous blocks of the shuffled order, in that order, and row order
within each split is the shuffled order. -/
theorem split_shuffles_then_slices (rows : List (List String)) (seed : Nat) :
    List.Perm (shuffle seed rows) rows ∧
    (splitData (shuffle seed rows)).1 = (shuffle seed rows).take (boundary07 rows.length) ∧
    (splitData (shuffle seed rows)).2.1 =
      ((shuffle seed rows).drop (boundary07 rows.length)).take
        (boundary09 rows.length - boundary07 rows.length) ∧
    (splitData (shuffle seed rows)).2.2 = (shuffle seed rows).drop (boundary09 rows.length) ∧
    (splitData (shuffle seed rows)).1 ++ (splitData (shuffle seed rows)).2.1 ++
      (splitData (shuffle seed rows)).2.2 = shuffle seed rows := by
  refine ⟨shuffle_perm seed rows, ?_, ?_, ?_, splitData_append _⟩ <;>
    simp [splitData, shuffle_length]

/-- Claim C5: an encoded dataset of size `n = 10` splits, for any seed, into
sizes exactly `(7, 2, 1)`: boundaries `int(0.7*10) = 7` and `int(0.9*10) = 9`
give train rows 0..6, validation rows 7..8 and test row 9 of the shuffled
order. -/
theorem split_sizes_ten (rows : List (List String)) (seed : Nat) (h : rows.length = 10) :
    (splitData (shuffle seed rows)).1 = (shuffle seed rows).take 7 ∧
    (splitData (shuffle seed rows)).2.1 = ((shuffle seed rows).drop 7).take 2 ∧
    (splitData (shuffle seed rows)).2.2 = (shuffle seed rows).drop 9 ∧
    (splitData (shuffle seed rows)).1.length = 7 ∧
    (splitData (shuffle seed rows)).2.1.length = 2 ∧
    (splitData (shuffle seed rows)).2.2.length = 1 := by
  have hl : (shuffle seed rows).length = 10 := by rw [shuffle_length, h]
  have hb7 : boundary07 10 = 7 := boundary07_ten
  have hb9 : boundary09 10 = 9 := boundary09_ten
  refine ⟨?_, ?_, ?_, ?_, ?_, ?_⟩ <;>
    simp [splitData, hl, hb7, hb9, List.length_take, List.length_drop]

/-- Witness for C5 at a concrete ten-row dataset and seed 3. -/
theorem split_sizes_ten_witness :
    (splitData (shuffle 3 rowsTen)).1.length = 7 ∧
    (splitData (shuffle 3 rowsTen)).2.1.length = 2 ∧
    (splitData (shuffle 3 rowsTen)).2.2.length = 1 :=
  ⟨(split_sizes_ten rowsTen 3 rfl).2.2.2.1,
   (split_sizes_ten rowsTen 3 rfl).2.2.2.2.1,
   (split_sizes_ten rowsTen 3 rfl).2.2.2.2.2⟩

/-- Claim C2 (amended): the three splits partition the encoded dataset at the
level of row occurrences: the lengths sum to the dataset size, the
concatenation of the splits is a permutation of the dataset, membership is
preserved, and when the dataset's rows are pairwise distinct the three splits
are pairwise disjoint as sets of rows.  (As stated over arbitrary valid
datasets the pairwise-disjointness claim fails: a dataset with duplicated rows
puts equal rows into different splits — see the counterexample.) -/
theorem split_partition (rows : List (List String)) (seed : Nat) :
    (splitData (shuffle seed rows)).1.length + (splitData (shuffle seed rows)).2.1.length +
      (splitData (shuffle seed rows)).2.2.length = rows.length ∧
    List.Perm ((splitData (shuffle seed rows)).1 ++ (splitData (shuffle seed rows)).2.1 ++
      (splitData (shuffle seed rows)).2.2) rows ∧
    (∀ x, x ∈ rows ↔ x ∈ (splitData (shuffle seed rows)).1 ∨
      x ∈ (splitData (shuffle seed rows)).2.1 ∨ x ∈ (splitData (shuffle seed rows)).2.2) ∧
    (rows.Nodup →
      (splitData (shuffle seed rows)).1.Disjoint (splitData (shuffle seed rows)).2.1 ∧
      (splitData (shuffle seed rows)).1.Disjoint (splitData (shuffle seed rows)).2.2 ∧
      (splitData (shuffle seed rows)).2.1.Disjoint (splitData (shuffle seed rows)).2.2) := by
  have hperm : List.Perm ((splitData (shuffle seed rows)).1 ++
      (splitData (shuffle seed rows)).2.1 ++ (splitData (shuffle seed rows)).2.2) rows := by
    rw [splitData_append]
    exact shuffle_perm seed rows
  refine ⟨?_, hperm, ?_, ?_⟩
  · have := hperm.length_eq
    simpa [List.length_append, Nat.add_assoc] using this
  · intro x
    rw [← hperm.mem_iff]
    simp [List.mem_append, or_assoc]
  · intro hnd
    have hs := hperm.symm.nodup hnd
    rw [List.nodup_append] at hs
    obtain ⟨h12, h3, hd3⟩ := hs
    rw [List.nodup_append] at h12
    obtain ⟨h1, h2, hd12⟩ := h12
    rw [List.disjoint_append_left] at hd3
    exact ⟨hd12, hd3.1, hd3.2⟩

/-- Witness for C2 (amended) at a concrete distinct-row dataset and seed 5. -/
theorem split_partition_witness :
    (splitData (shuffle 5 rowsWPart)).1.length + (splitData (shuffle 5 rowsWPart)).2.1.length +
      (splitData (shuffle 5 rowsWPart)).2.2.length = rowsWPart.length ∧
    (splitData (shuffle 5 rowsWPart)).1.Disjoint (splitData (shuffle 5 rowsWPart)).2.2 :=
  ⟨(split_partition rowsWPart 5).1,
   ((split_partition rowsWPart 5).2.2.2 (by decide)).2.1⟩

/-- Counterexample to C2 as stated: a valid encoded dataset (derived by the
pipeline itself from a parseable input) with duplicated rows, where the same
row belongs to both the train and the validation split, so the splits are not
pairwise disjoint as sets of rows. -/
theorem split_disjoint_cex :
    encodedOf dupIn = .ok encDup ∧
    ["1", "10", "1", "0"] ∈ (splitData (shuffle 1729 encDup.rows)).1 ∧
    ["1", "10", "1", "0"] ∈ (splitData (shuffle 1729 encDup.rows)).2.1 :=
  ⟨rfl, by decide, by decide⟩

/-- Claim C3: the whole transform is a deterministic function of the input
bytes and the seed — two runs on equal inputs with equal seeds produce
byte-identical train, validation and test outputs, and identical writes. -/
theorem preprocess_deterministic (i1 i2 : List String) (s1 s2 : Nat)
    (hi : i1 = i2) (hs : s1 = s2) :
    preprocessFiles i1 s1 = preprocessFiles i2 s2 ∧
    runWrites i1 s1 = runWrites i2 s2 := by
  subst hi
  subst hs
  exact ⟨rfl, rfl⟩

/-- Witness for C3: two runs on the same concrete input and seed agree. -/
theorem preprocess_deterministic_witness :
    preprocessFiles wDet 42 = preprocessFiles wDet 42 ∧
    runWrites wDet 42 = runWrites wDet 42 :=
  preprocess_deterministic wDet wDet 42 42 rfl rfl

/-- Claim C7: every run either writes all three split files or none: when the
transform fails with any pre-write error (format, schema or data error) no file
is written, and otherwise exactly the three split files are written. -/
theorem writes_all_or_nothing (input : List String) (seed : Nat) :
    (runWrites input seed).length = 3 ∨
    ((preprocessFiles input seed = .error .formatError ∨
      preprocessFiles input seed = .error .schemaError ∨
      preprocessFiles input seed = .error .dataError) ∧
      runWrites input seed = []) := by
  cases h : preprocessFiles input seed with
  | error e =>
      right
      refine ⟨?_, by simp [runWrites, h]⟩
      cases e
      · exact Or.inl rfl
      · exact Or.inr (Or.inl rfl)
      · exact Or.inr (Or.inr rfl)
  | ok t =>
      left
      obtain ⟨a, b, c⟩ := t
      simp [runWrites, h]

/-! ## Lemmas about missing columns -/

theorem mem_colNames_getCol {df : Df} {j : Nat} (hj : j < df.cols.length) :
    (getCol df j).1 ∈ colNames df := by
  have hg : getCol df j = df.cols[j] := List.getD_eq_getElem df.cols ("", false) hj
  rw [hg]
  exact List.mem_map.mpr ⟨df.cols[j], List.getElem_mem hj, rfl⟩

theorem colNames_selectIdx_subset {df : Df} {js : List Nat}
    (hjs : ∀ j ∈ js, j < df.cols.length) {x : String}
    (hx : x ∈ colNames (selectIdx js df)) : x ∈ colNames df := by
  simp only [colNames, selectIdx, List.map_map, List.mem_map] at hx
  obtain ⟨j, hj, rfl⟩ := hx
  exact mem_colNames_getCol (hjs j hj)

theorem dropCols_err_eq {names : List String} {df : Df} {e : PErr}
    (h : dropCols names df = .error e) : e = .schemaError := by
  simp only [dropCols] at h
  split at h
  · cases h
  · cases h; rfl

theorem astypeObject_err_eq {name : String} {df : Df} {e : PErr}
    (h : astypeObject name df = .error e) : e = .schemaError := by
  simp only [astypeObject] at h
  split at h
  · cases h
  · cases h; rfl

/-- Dropping a column that is absent raises the schema error. -/
theorem dropCols_not_mem {names : List String} {df : Df} {c : String}
    (hc : c ∈ names) (hmiss : c ∉ colNames df) :
    dropCols names df = .error .schemaError := by
  simp only [dropCols]
  split
  · rename_i hall
    simp only [List.all_eq_true, decide_eq_true_eq] at hall
    exact absurd (hall c hc) hmiss
  · rfl

theorem dropCols_ok_names_subset {names : List String} {df d : Df}
    (h : dropCols names df = .ok d) {x : String} (hx : x ∈ colNames d) :
    x ∈ colNames df := by
  obtain ⟨rfl, -⟩ := dropCols_ok_inv h
  refine colNames_selectIdx_subset ?_ hx
  intro j hj
  simp only [List.mem_filter, List.mem_range] at hj
  exact hj.1

/-- If any named discard column is missing, the cleaning phase fails with the
schema error. -/
theorem cleanCast_missing_discard {df : Df} {c : String}
    (hc : c ∈ ["Phone", "Day Charge", "Eve Charge", "Night Charge", "Intl Charge"])
    (hmiss : c ∉ colNames df) :
    cleanCast df = .error .schemaError := by
  unfold cleanCast
  cases h1 : dropCols ["Phone"] df with
  | error e =>
      have he := dropCols_err_eq h1
      subst he
      simp [h1, Bind.bind, Except.bind]
  | ok d1 =>
      have hphone : "Phone" ∈ colNames df := (dropCols_ok_inv h1).2 "Phone" (by simp)
      have hcne : c ≠ "Phone" := fun hq => hmiss (hq ▸ hphone)
      have hc4 : c ∈ ["Day Charge", "Eve Charge", "Night Charge", "Intl Charge"] := by
        simpa [hcne] using hc
      have hmiss1 : c ∉ colNames d1 := fun hm => hmiss (dropCols_ok_names_subset h1 hm)
      cases h2 : astypeObject "Area Code" d1 with
      | error e =>
          have he := astypeObject_err_eq h2
          subst he
          simp [h1, h2, Bind.bind, Except.bind]
      | ok d2 =>
          have hnames := (astypeObject_ok h2).2.2
          have hmiss2 : c ∉ colNames d2 := by rw [hnames]; exact hmiss1
          have h3 := dropCols_not_mem hc4 hmiss2
          simp [h1, h2, h3, Bind.bind, Except.bind]

/-- Claim C6: an input whose parsed dataset is missing the discard column
"Phone" (or any other named discard column) makes the clean step fail with the
schema error, and the run produces no output files. -/
theorem missing_discard_column_fails (input : List String) (seed : Nat) (df : Df) (c : String)
    (h1 : readCsv input = .ok df)
    (hc : c ∈ ["Phone", "Day Charge", "Eve Charge", "Night Charge", "Intl Charge"])
    (hmiss : c ∉ colNames df) :
    preprocessFiles input seed = .error .schemaError ∧ runWrites input seed = [] := by
  have hclean := cleanCast_missing_discard hc hmiss
  have henc : encodedOf input = .error .schemaError := by
    simp [encodedOf, h1, hclean, Bind.bind, Except.bind]
  have hrows : preprocessRows input seed = .error .schemaError := by
    simp [preprocessRows, henc, Bind.bind, Except.bind]
  have hfiles : preprocessFiles input seed = .error .schemaError := by
    simp [preprocessFiles, hrows, Except.map]
  exact ⟨hfiles, by simp [runWrites, hfiles]⟩

/-- Witness for C6: the concrete Phone-less input fails with the schema error
and writes nothing. -/
theorem missing_discard_column_fails_witness :
    preprocessFiles wNoPhone 9 = .error .schemaError ∧ runWrites wNoPhone 9 = [] :=
  missing_discard_column_fails wNoPhone 9 dfNoPhone "Phone" rfl (by decide) (by decide)

/-- Counterexample to C8 as stated: a two-row dataset is too small to produce a
non-empty validation split (`int(0.7*2) = int(0.9*2) = 1`), yet the run does
not fail — it succeeds and silently writes an empty validation file. -/
theorem small_dataset_silently_splits_cex :
    preprocessFiles smallC8 1729 = .ok (["0,22,0,1"], [], ["1,11,1,0"]) ∧
    runWrites smallC8 1729 =
      [("train.csv", ["0,22,0,1"]), ("validation.csv", []), ("test.csv", ["1,11,1,0"])] :=
  ⟨rfl, rfl⟩

/-- Claim C8 (amended): a completely empty input fails at load (the parser
rejects it) and the run writes nothing; but a row count too small to produce
non-empty splits does not abort the run — the transform succeeds and silently
writes an empty split file. -/
theorem empty_input_fails_small_input_writes (seed : Nat) :
    preprocessFiles [] seed = .error .formatError ∧ runWrites [] seed = [] ∧
    preprocessFiles smallC8 1729 = .ok (["0,22,0,1"], [], ["1,11,1,0"]) ∧
    runWrites smallC8 1729 =
      [("train.csv", ["0,22,0,1"]), ("validation.csv", []), ("test.csv", ["1,11,1,0"])] :=
  ⟨rfl, rfl, rfl, rfl⟩

/-! ## Uniform columns across splits and the numeric frame condition -/

theorem encodedOf_ok_inv {input : List String} {enc : Df}
    (h : encodedOf input = .ok enc) :
    ∃ df d, readCsv input = .ok df ∧ cleanCast df = .ok d ∧ encode d = .ok enc := by
  unfold encodedOf at h
  obtain ⟨df, hdf, h2⟩ := except_bind_ok_inv h
  obtain ⟨d, hd, h3⟩ := except_bind_ok_inv h2
  exact ⟨df, d, hdf, hd, h3⟩

theorem preprocessRows_ok_split {input : List String} {seed : Nat} {enc : Df}
    {t v te : List (List String)}
    (henc : encodedOf input = .ok enc)
    (h : preprocessRows input seed = .ok (t, v, te)) :
    (t, v, te) = splitData (shuffle seed enc.rows) := by
  simp only [preprocessRows, henc, Bind.bind, Except.bind, pure, Except.pure,
    Except.ok.injEq] at h
  exact h.symm

/-- Claim C9: for every valid input, column count and column order are
identical across the train, validation and test outputs of one run: every row
of every split has exactly one cell per encoded column, and the rows of the
three splits are exactly the rows of the single encoded frame (whose column
layout is shared), so splitting and writing never reorder, add or drop
columns per split. -/
theorem splits_uniform_columns (input : List String) (seed : Nat) (enc : Df)
    (henc : encodedOf input = .ok enc)
    (t v te : List (List String))
    (h : preprocessRows input seed = .ok (t, v, te)) :
    (∀ r, r ∈ t ∨ r ∈ v ∨ r ∈ te → r.length = enc.cols.length) ∧
    List.Perm (t ++ v ++ te) enc.rows := by
  obtain ⟨df, d, hdf, hd, hencode⟩ := encodedOf_ok_inv henc
  have hrect : Rect enc := encode_ok_rect hencode
  have hsplit := preprocessRows_ok_split henc h
  have ht : t = (splitData (shuffle seed enc.rows)).1 := by rw [← hsplit]
  have hv : v = (splitData (shuffle seed enc.rows)).2.1 := by rw [← hsplit]
  have hte : te = (splitData (shuffle seed enc.rows)).2.2 := by rw [← hsplit]
  constructor
  · intro r hr
    have hmem : r ∈ shuffle seed enc.rows := by
      refine mem_of_mem_splitData ?_
      rw [← ht, ← hv, ← hte]
      exact hr
    exact hrect r ((shuffle_perm seed enc.rows).mem_iff.mp hmem)
  · rw [ht, hv, hte, splitData_append]
    exact shuffle_perm seed enc.rows

/-- Witness for C9 at the concrete input `wC9`: a train row has exactly one
cell per encoded column. -/
theorem splits_uniform_columns_witness :
    (["0", "105", "0", "1", "0"] : List String).length = encC9.cols.length :=
  (splits_uniform_columns wC9 1729 encC9 rfl
    [["0", "105", "0", "1", "0"], ["0", "103", "1", "0", "0"], ["1", "104", "0", "0", "1"]]
    [["1", "101", "1", "0", "0"]]
    [["0", "102", "0", "1", "0"]] rfl).1
    ["0", "105", "0", "1", "0"] (Or.inl (by decide))

theorem getD_append_map_left {β : Type} (g : Nat → β) (l : List Nat) (B : List β) (d : β)
    {k : Nat} (hk : k < l.length) :
    ((l.map g) ++ B).getD k d = g l[k] := by
  rw [List.getD_append _ _ _ _ (by simpa using hk)]
  rw [List.getD_eq_getElem _ _ (by simpa using hk)]
  simp

theorem getD_map_fn {β γ : Type} (f : β → γ) (l : List β) (d : γ) {i : Nat}
    (hi : i < l.length) :
    (l.map f).getD i d = f l[i] := by
  rw [List.getD_eq_getElem _ _ (by simpa using hi)]
  simp

/-- Claim C10: one-hot expansion is a frame transformation on the numeric
columns: every non-object column keeps its header and, in every row, its cell
value — the column merely moves to its position among the numeric columns
(`idxOf j (numIdx df)`); only categorical columns are replaced by indicator
columns. -/
theorem getDummies_preserves_numeric (df : Df) (j : Nat) (hj : j < df.cols.length)
    (hnum : (getCol df j).2 = false) (i : Nat) (hi : i < df.rows.length) :
    idxOf j (numIdx df) < (getDummies df).cols.length ∧
    getCol (getDummies df) (idxOf j (numIdx df)) = getCol df j ∧
    getCell ((getDummies df).rows.getD i []) (idxOf j (numIdx df)) =
      getCell (df.rows.getD i []) j := by
  have hjmem : j ∈ numIdx df := by
    simp only [numIdx, List.mem_filter, List.mem_range]
    exact ⟨hj, by simp [hnum]⟩
  have hk : idxOf j (numIdx df) < (numIdx df).length := idxOf_lt_length hjmem
  have hkj : (numIdx df)[idxOf j (numIdx df)] = j := get_idxOf hjmem
  refine ⟨?_, ?_, ?_⟩
  · simp only [getDummies, List.length_append, List.length_map]
    omega
  · show ((getDummies df).cols).getD (idxOf j (numIdx df)) ("", false) = getCol df j
    simp only [getDummies]
    rw [getD_append_map_left (fun j => getCol df j) (numIdx df) _ _ hk, hkj]
  · have hrowi : (getDummies df).rows.getD i [] =
        ((numIdx df).map fun j => getCell df.rows[i] j) ++
        (objIdx df).flatMap (fun j => (dummyVals df j).map
          fun v => if getCell df.rows[i] j = v then "1" else "0") := by
      simp only [getDummies]
      rw [getD_map_fn _ _ _ hi]
    rw [hrowi]
    show (((numIdx df).map fun j => getCell df.rows[i] j) ++ _).getD (idxOf j (numIdx df)) ""
      = getCell (df.rows.getD i []) j
    rw [getD_append_map_left (fun j => getCell df.rows[i] j) (numIdx df) _ _ hk, hkj]
    rw [List.getD_eq_getElem _ _ hi]

/-- Witness for C10 at `dfC10`: the numeric "Mins" column keeps its header and
its first-row value through one-hot expansion. -/
theorem getDummies_preserves_numeric_witness :
    idxOf 1 (numIdx dfC10) < (getDummies dfC10).cols.length ∧
    getCol (getDummies dfC10) (idxOf 1 (numIdx dfC10)) = getCol dfC10 1 ∧
    getCell ((getDummies dfC10).rows.getD 0 []) (idxOf 1 (numIdx dfC10)) =
      getCell (dfC10.rows.getD 0 []) 1 :=
  getDummies_preserves_numeric dfC10 1 (by decide) rfl 0 (by decide)

/-! ## Label placement -/

theorem colNames_getDummies (df : Df) :
    colNames (getDummies df) = numericColNames df ++ dummyNames df := by
  simp only [colNames, getDummies, numericColNames, dummyNames, List.map_append,
    List.map_map, List.map_flatMap]
  rfl

/-- Every cell of the indicator block of a one-hot expanded row is 1 or 0. -/
theorem dummy_cells_binary {df : Df} {rr : List String} {x : String}
    (hx : x ∈ (objIdx df).flatMap fun j => (dummyVals df j).map
      fun v => if getCell rr j = v then "1" else "0") :
    x = "1" ∨ x = "0" := by
  simp only [List.mem_flatMap, List.mem_map] at hx
  obtain ⟨j, -, v, -, rfl⟩ := hx
  by_cases h : getCell rr j = v <;> simp [h]

theorem getCol_idxOf_name {df : Df} {x : String} (hx : x ∈ colNames df) :
    (getCol df (idxOf x (colNames df))).1 = x := by
  have hlt : idxOf x (colNames df) < (colNames df).length := idxOf_lt_length hx
  have hlt2 : idxOf x (colNames df) < df.cols.length := by
    simpa [colNames] using hlt
  have hg : getCol df (idxOf x (colNames df)) = df.cols[idxOf x (colNames df)] :=
    List.getD_eq_getElem df.cols ("", false) hlt2
  rw [hg]
  have hge : (colNames df)[idxOf x (colNames df)] = x := get_idxOf hx
  simpa [colNames, List.getElem_map] using hge

/-- Claim C4: for every valid input (one where no numeric column of the
cleaned frame is itself named "Churn?_True."), the encode step collapses the
two churn indicator columns into a single binary label column at position 0:
in every output row of every split the first value is 0 or 1 (an indicator
cell, never a feature value), the first encoded column is `Churn?_True.`, and
neither churn indicator column remains among the feature columns. -/
theorem label_first_binary (input : List String) (seed : Nat) (df d enc : Df)
    (h1 : readCsv input = .ok df) (h2 : cleanCast df = .ok d)
    (hn : "Churn?_True." ∉ numericColNames d)
    (henc : encode d = .ok enc)
    (t v te : List (List String))
    (h : preprocessRows input seed = .ok (t, v, te)) :
    (∀ r, r ∈ t ∨ r ∈ v ∨ r ∈ te → r.head? = some "0" ∨ r.head? = some "1") ∧
    (colNames enc).head? = some "Churn?_True." ∧
    (∀ c ∈ enc.cols.tail, c.1 ≠ "Churn?_True." ∧ c.1 ≠ "Churn?_False.") := by
  have hencOf : encodedOf input = .ok enc := by
    simp [encodedOf, h1, h2, henc, Bind.bind, Except.bind]
  have hsplit := preprocessRows_ok_split hencOf h
  have hmd : encodeLabel (getDummies d) = .ok enc := henc
  obtain ⟨hencEq, hmemT, hmemF⟩ := encodeLabel_ok_inv hmd
  have hnames : colNames (getDummies d) = numericColNames d ++ dummyNames d :=
    colNames_getDummies d
  have hmemTd : "Churn?_True." ∈ dummyNames d := by
    rcases List.mem_append.mp (hnames ▸ hmemT) with hmem | hmem
    · exact absurd hmem hn
    · exact hmem
  have hjT : idxOf "Churn?_True." (colNames (getDummies d)) =
      (numericColNames d).length + idxOf "Churn?_True." (dummyNames d) := by
    rw [hnames]
    exact idxOf_append_of_not_mem hn
  refine ⟨?_, ?_, ?_⟩
  · intro r hr
    have ht : t = (splitData (shuffle seed enc.rows)).1 := by rw [← hsplit]
    have hv : v = (splitData (shuffle seed enc.rows)).2.1 := by rw [← hsplit]
    have hte : te = (splitData (shuffle seed enc.rows)).2.2 := by rw [← hsplit]
    have hmem : r ∈ enc.rows := by
      refine (shuffle_perm seed enc.rows).mem_iff.mp (mem_of_mem_splitData ?_)
      rw [← ht, ← hv, ← hte]
      exact hr
    rw [hencEq] at hmem
    simp only [selectIdx, List.mem_map] at hmem
    obtain ⟨r0, hr0, rfl⟩ := hmem
    simp only [List.map_cons, List.head?_cons]
    have hr0' : ∃ rr ∈ d.rows, r0 = ((numIdx d).map fun j => getCell rr j) ++
        (objIdx d).flatMap (fun j => (dummyVals d j).map
          fun v => if getCell rr j = v then "1" else "0") := by
      simpa [getDummies, List.mem_map, eq_comm] using hr0
    obtain ⟨rr, hrr, hr0eq⟩ := hr0'
    have hlenNum : ((numIdx d).map fun j => getCell rr j).length =
        (numericColNames d).length := by
      simp [numericColNames]
    have hj2 : idxOf "Churn?_True." (dummyNames d) < (dummyNames d).length :=
      idxOf_lt_length hmemTd
    have hlenDummy : ((objIdx d).flatMap (fun j => (dummyVals d j).map
        fun v => if getCell rr j = v then "1" else "0")).length = (dummyNames d).length := by
      unfold dummyNames
      exact flatMap_length_congr _ _ _ fun j _ => by simp
    have hcell : getCell r0 (idxOf "Churn?_True." (colNames (getDummies d))) ∈
        (objIdx d).flatMap (fun j => (dummyVals d j).map
          fun v => if getCell rr j = v then "1" else "0") := by
      rw [hr0eq, hjT]
      show (((numIdx d).map fun j => getCell rr j) ++ _).getD
        ((numericColNames d).length + idxOf "Churn?_True." (dummyNames d)) "" ∈ _
      rw [List.getD_append_right _ _ _ _ (by omega)]
      rw [List.getD_eq_getElem _ _ (by omega)]
      exact List.getElem_mem _
    rcases dummy_cells_binary hcell with hb | hb
    · right
      rw [hb]
    · left
      rw [hb]
  · rw [hencEq]
    simp only [selectIdx, colNames, List.map_cons, List.head?_cons]
    exact congrArg some (getCol_idxOf_name hmemT)
  · intro c hc
    rw [hencEq] at hc
    simp only [selectIdx, List.map_cons, List.tail_cons, List.mem_map] at hc
    obtain ⟨j, hj, rfl⟩ := hc
    simp only [List.mem_filter, List.mem_range, Bool.not_eq_true', Bool.or_eq_false_iff,
      decide_eq_false_iff_not] at hj
    exact ⟨hj.2.2, hj.2.1⟩

/-- Witness for C4 at the concrete input `wC4`: the train row starts with its
binary churn label. -/
theorem label_first_binary_witness :
    List.head? ["0", "88", "0", "1"] = some "0" ∨
    List.head? ["0", "88", "0", "1"] = some "1" :=
  (label_first_binary wC4 1729 dfC4 dC4 encC4 rfl rfl (by decide) rfl
    [["0", "88", "0", "1"]] [] [["1", "77", "1", "0"]] rfl).1
    ["0", "88", "0", "1"] (Or.inl (by decide))
